import Mathlib

/-!
Verification development for the lcpdf trade-document compliance core.

The repository ships the compliance logic (date normalization and rule
evaluation) as natural-language instructions embedded in the prompt string of
`generateSummary` (services/gemini.ts) rather than as executable code; the
specification mandates a deterministic reimplementation.  The definitions in
the `DateNormalizer` and `ComplianceEvaluator` namespaces are therefore
modelled from the specification text (sections 3 and 4), while the
`FileUploader` namespace embeds the actual `processFiles` code of the
file-upload component.
-/

/-- Modelled from the spec: a calendar date with explicit year (4-digit),
month (1-12) and day; produced only through `DateNormalizer.mkValid`, which
checks validity. -/
structure NormalizedDate where
  year : Nat
  month : Nat
  day : Nat
deriving DecidableEq, Repr

namespace DateNormalizer

/-- Gregorian leap-year test. -/
def isLeapYear (y : Nat) : Bool :=
  (y % 4 == 0 && y % 100 != 0) || y % 400 == 0

/-- Number of days in a month of a given year. -/
def daysInMonth (y m : Nat) : Nat :=
  if m == 2 then (if isLeapYear y then 29 else 28)
  else if m == 4 || m == 6 || m == 9 || m == 11 then 30
  else 31

/-- Month and day are plausible for the given year: month in 1..12 and day in
1..daysInMonth. -/
def validMD (y m d : Nat) : Bool :=
  1 ≤ m && m ≤ 12 && 1 ≤ d && d ≤ daysInMonth y m

/-- Modelled from the spec: the `NormalizedDate` invariant — a 4-digit year
and a plausible month/day combination (no Feb-30 etc.). -/
def isValidDate (y m d : Nat) : Bool :=
  1000 ≤ y && y ≤ 9999 && validMD y m d

/-- Smart constructor: build a `NormalizedDate` only when valid, otherwise
signal `DateParseError` (modelled as `none`). -/
def mkValid (y m d : Nat) : Option NormalizedDate :=
  if isValidDate y m d then some ⟨y, m, d⟩ else none

/-- Numeric value of a digit character. -/
def digitVal (c : Char) : Nat := c.toNat - 48

/-- Decimal value of a digit string. -/
def parseNat (cs : List Char) : Nat :=
  cs.foldl (fun a c => a * 10 + digitVal c) 0

/-- Modelled from the spec: two-digit years are windowed, 00-69 to 2000+yy
and 70-99 to 1900+yy; larger values are taken as-is. -/
def resolveYearVal (v : Nat) : Nat :=
  if v ≤ 69 then 2000 + v else if v ≤ 99 then 1900 + v else v

/-- Year value of a numeric year group: groups of three or more digits are
taken at face value, shorter groups are windowed. -/
def resolveYear (g : List Char) : Nat :=
  if 3 ≤ g.length then parseNat g else resolveYearVal (parseNat g)

/-- Date-group delimiter: slash or dash. -/
def isDelim (c : Char) : Bool := c == '/' || c == '-'

/-- Split a character list into the groups between slash/dash delimiters. -/
def splitGroups : List Char → List (List Char)
  | [] => [[]]
  | c :: cs =>
    let r := splitGroups cs
    if isDelim c then [] :: r
    else (c :: r.headD []) :: r.tail

/-- Modelled from the spec: six contiguous digits are read as YYMMDD
(year 2000+first pair, month middle pair, day last pair), falling back to
DDMMYY (with the windowed year) only when the YYMMDD reading is invalid. -/
def parse6 (cs : List Char) : Option NormalizedDate :=
  let a := parseNat (cs.take 2)
  let b := parseNat ((cs.drop 2).take 2)
  let c := parseNat (cs.drop 4)
  mkValid (2000 + a) b c <|> mkValid (resolveYearVal c) b a

/-- Modelled from the spec: three delimited numeric groups; a 4-digit first
group means YYYY-MM-DD, otherwise DD/MM/YYYY is preferred with MM/DD/YYYY as
the fallback reading. -/
def parseGroups (g1 g2 g3 : List Char) : Option NormalizedDate :=
  if g1.length == 4 then mkValid (parseNat g1) (parseNat g2) (parseNat g3)
  else
    mkValid (resolveYear g3) (parseNat g2) (parseNat g1) <|>
      mkValid (resolveYear g3) (parseNat g1) (parseNat g2)

/-- Uppercase every character. -/
def toUpperChars (cs : List Char) : List Char := cs.map Char.toUpper

/-- First list is an initial segment of the second. -/
def leadsList : List Char → List Char → Bool
  | [], _ => true
  | _ :: _, [] => false
  | a :: as, b :: bs => a == b && leadsList as bs

/-- First list occurs contiguously inside the second. -/
def containsSub (n : List Char) : List Char → Bool
  | [] => n.isEmpty
  | c :: t => leadsList n (c :: t) || containsSub n t

/-- Three-letter month abbreviations, in month order; every full English
month name begins with its abbreviation, so substring search on the
uppercased input recognizes both. -/
def monthAbbrs : List (List Char) :=
  ["JAN".data, "FEB".data, "MAR".data, "APR".data, "MAY".data, "JUN".data,
   "JUL".data, "AUG".data, "SEP".data, "OCT".data, "NOV".data, "DEC".data]

/-- Month number of the first recognized month name in the (uppercased)
input, if any. -/
def findMonth (up : List Char) : Option Nat :=
  (monthAbbrs.findIdx? (fun n => containsSub n up)).map (· + 1)

/-- Maximal runs of contiguous digits, with an accumulator for the run in
progress (kept reversed). -/
def digitRunsAux (cur : List Char) : List Char → List (List Char)
  | [] => if cur.isEmpty then [] else [cur.reverse]
  | c :: cs =>
    if c.isDigit then digitRunsAux (c :: cur) cs
    else if cur.isEmpty then digitRunsAux [] cs
    else cur.reverse :: digitRunsAux [] cs

/-- Maximal runs of contiguous digits in a character list. -/
def digitRuns (cs : List Char) : List (List Char) := digitRunsAux [] cs

/-- Modelled from the spec: prose dates — locate a recognized month name
case-insensitively, extract the remaining two numeric tokens, take the
4-digit token (otherwise the trailing, windowed token) as the year and the
other as the day. -/
def parseProse (cs : List Char) : Option NormalizedDate :=
  let up := toUpperChars cs
  match findMonth up with
  | none => none
  | some m =>
    match digitRuns up with
    | [t1, t2] =>
      if t1.length == 4 then mkValid (parseNat t1) m (parseNat t2)
      else if t2.length == 4 then mkValid (parseNat t2) m (parseNat t1)
      else mkValid (resolveYearVal (parseNat t2)) m (parseNat t1)
    | _ => none

/-- Dispatch on the delimiter groups of the input: exactly three nonempty
all-digit groups go to the delimited parser, anything else to the prose
parser. -/
def delimitedCase (cs : List Char) : List (List Char) → Option NormalizedDate
  | [g1, g2, g3] =>
    if !g1.isEmpty && !g2.isEmpty && !g3.isEmpty &&
        g1.all Char.isDigit && g2.all Char.isDigit && g3.all Char.isDigit
    then parseGroups g1 g2 g3
    else parseProse cs
  | _ => parseProse cs

/-- Modelled from the spec: the format dispatch of
`DateNormalizer.normalize`, in priority order — six contiguous digits, then
three delimited numeric groups, then prose month names; anything else is a
`DateParseError` (`none`). -/
def normalizeChars (cs : List Char) : Option NormalizedDate :=
  if cs.length == 6 && cs.all Char.isDigit then parse6 cs
  else delimitedCase cs (splitGroups cs)

/-- Modelled from the spec: `DateNormalizer.normalize`, the entry point.
`none` stands for `DateParseError`. -/
def normalize (s : String) : Option NormalizedDate := normalizeChars s.data

/-- Digit character for a value below ten. -/
def digitChar (n : Nat) : Char := Char.ofNat (48 + n)

/-- Two-digit zero-padded decimal rendering. -/
def pad2 (n : Nat) : List Char := [digitChar (n / 10), digitChar (n % 10)]

/-- Four-digit decimal rendering of a year. -/
def year4 (y : Nat) : List Char :=
  [digitChar (y / 1000), digitChar (y / 100 % 10), digitChar (y / 10 % 10),
   digitChar (y % 10)]

/-- Character form of the canonical DD/MM/YYYY display serialization. -/
def serializeChars (d : NormalizedDate) : List Char :=
  pad2 d.day ++ '/' :: pad2 d.month ++ '/' :: year4 d.year

/-- Modelled from the spec: re-serialization of a parsed date for display in
canonical DD/MM/YYYY form. -/
def serializeDate (d : NormalizedDate) : String :=
  String.mk (serializeChars d)

/-- Delimited-date rule exactly as the claim words it, for comparison with
`parseGroups`: a 4-digit first group means YYYY-MM-DD; otherwise the
MM/DD/YYYY reading is used only when the first group value exceeds 12, and
the DD/MM/YYYY reading is used in every other case. -/
def claimC2Delimited (g1 g2 g3 : List Char) : Option NormalizedDate :=
  if g1.length == 4 then mkValid (parseNat g1) (parseNat g2) (parseNat g3)
  else if 12 < parseNat g1 then
    mkValid (resolveYear g3) (parseNat g1) (parseNat g2)
  else mkValid (resolveYear g3) (parseNat g2) (parseNat g1)

end DateNormalizer

example : DateNormalizer.normalize "251124" = some ⟨2025, 11, 24⟩ := by decide
example : DateNormalizer.normalize "12/25/2023" = some ⟨2023, 12, 25⟩ := by decide
example : DateNormalizer.normalize "2023-12-25" = some ⟨2023, 12, 25⟩ := by decide
example : DateNormalizer.normalize "25/12/2023" = some ⟨2023, 12, 25⟩ := by decide
example : DateNormalizer.normalize "12/25/23" = some ⟨2023, 12, 25⟩ := by decide
example : DateNormalizer.normalize "25th Dec 2023" = some ⟨2023, 12, 25⟩ := by decide
example : DateNormalizer.normalize "Dec 25, 2023" = some ⟨2023, 12, 25⟩ := by decide
example : DateNormalizer.normalize "garbage" = none := by decide
example : DateNormalizer.serializeDate ⟨2023, 12, 25⟩ = "25/12/2023" := by decide
example : DateNormalizer.normalize "320112" = some ⟨2032, 1, 12⟩ := by decide
example : DateNormalizer.normalize "250230" = some ⟨2030, 2, 25⟩ := by decide

/-- Modelled from the spec: the extracted trade-document field values
consumed by the evaluator; every field is independently optional. -/
structure TradeFields where
  exportContractDate : Option String
  dateOfIssue : Option String
  latestShipmentDate : Option String
  expiryDate : Option String
  draftsAt : Option String
  hasOverdueInterestClause : Option Bool
deriving DecidableEq, Repr

/-- A named compliance check with its verdict and fixed explanation. -/
structure ComplianceRule where
  ruleName : String
  passed : Bool
  explanation : String
deriving DecidableEq, Repr

/-- Modelled from the spec: the evaluator output — the trade-document flag,
the normalized date values actually used, and the ordered rule verdicts. -/
structure ComplianceResult where
  isTradeDocument : Bool
  exportContractDate : Option NormalizedDate
  dateOfIssue : Option NormalizedDate
  latestShipmentDate : Option NormalizedDate
  expiryDate : Option NormalizedDate
  rules : List ComplianceRule
deriving DecidableEq, Repr

namespace ComplianceEvaluator

/-- Total order on calendar dates: year, then month, then day. -/
def dateLe (a b : NormalizedDate) : Bool :=
  if a.year = b.year then
    if a.month = b.month then decide (a.day ≤ b.day)
    else decide (a.month < b.month)
  else decide (a.year < b.year)

def exportRuleName : String := "Export Contract Sequence"
def shipmentRuleName : String := "Shipment & Expiry Sequence"
def interestRuleName : String := "Overdue Interest Verification"

def missingDateMsg : String := "Missing required date for verification"
def exportSeqFailMsg : String :=
  "Export Contract Date must be on or before the Date of Issue"
def exportSeqPassMsg : String :=
  "Export Contract Date is on or before the Date of Issue"
def shipmentSeqFailMsg : String :=
  "Dates must follow sequence: Issue -> Shipment -> Expiry"
def shipmentSeqPassMsg : String :=
  "Dates follow sequence: Issue -> Shipment -> Expiry"
def atSightPassMsg : String := "Interest clause not required for At Sight drafts"
def usancePassMsg : String := "Overdue interest clause present for usance draft"
def usanceFailMsg : String := "Missing overdue interest clause for usance draft"

/-- Modelled from the spec: verdict and explanation of rule
"Export Contract Sequence" from the normalized export-contract date and date
of issue. -/
def exportOutcome : Option NormalizedDate → Option NormalizedDate → Bool × String
  | some a, some b =>
    if dateLe a b then (true, exportSeqPassMsg) else (false, exportSeqFailMsg)
  | _, _ => (false, missingDateMsg)

/-- Modelled from the spec: verdict and explanation of rule
"Shipment & Expiry Sequence" from the normalized date of issue, latest
shipment date and expiry date. -/
def shipmentOutcome :
    Option NormalizedDate → Option NormalizedDate → Option NormalizedDate →
      Bool × String
  | some a, some b, some c =>
    if dateLe a b && dateLe b c then (true, shipmentSeqPassMsg)
    else (false, shipmentSeqFailMsg)
  | _, _, _ => (false, missingDateMsg)

/-- Case-insensitive test whether the payment terms contain "AT SIGHT". -/
def containsAtSight (s : String) : Bool :=
  DateNormalizer.containsSub "AT SIGHT".data (DateNormalizer.toUpperChars s.data)

/-- Modelled from the spec: verdict and explanation of rule
"Overdue Interest Verification" from the payment terms and the
overdue-interest-clause flag. -/
def interestOutcome : Option String → Option Bool → Bool × String
  | some s, clause =>
    if containsAtSight s then (true, atSightPassMsg)
    else if clause == some true then (true, usancePassMsg)
    else (false, usanceFailMsg)
  | none, _ => (false, missingDateMsg)

/-- Package a rule name with an outcome pair. -/
def mkRule (name : String) (o : Bool × String) : ComplianceRule :=
  ⟨name, o.1, o.2⟩

/-- Normalization of an optional raw date field: absence and
`DateParseError` both become `none` (the "missing date" state). -/
def getDate (o : Option String) : Option NormalizedDate :=
  o.bind DateNormalizer.normalize

/-- Modelled from the spec: the three rule verdicts, in the fixed evaluation
order, computed from one set of normalized date values. -/
def rulesFromDates (ecd doi lsd xpd : Option NormalizedDate)
    (draftsAt : Option String) (clause : Option Bool) : List ComplianceRule :=
  [mkRule exportRuleName (exportOutcome ecd doi),
   mkRule shipmentRuleName (shipmentOutcome doi lsd xpd),
   mkRule interestRuleName (interestOutcome draftsAt clause)]

/-- Modelled from the spec: `ComplianceEvaluator.evaluate`.  Each date field
is normalized exactly once; the same values feed the rules and the result.
`isTradeDocument` is true when at least one trade field is present. -/
def evaluate (f : TradeFields) : ComplianceResult :=
  let ecd := getDate f.exportContractDate
  let doi := getDate f.dateOfIssue
  let lsd := getDate f.latestShipmentDate
  let xpd := getDate f.expiryDate
  { isTradeDocument :=
      f.exportContractDate.isSome || f.dateOfIssue.isSome ||
        f.latestShipmentDate.isSome || f.expiryDate.isSome || f.draftsAt.isSome
    exportContractDate := ecd
    dateOfIssue := doi
    latestShipmentDate := lsd
    expiryDate := xpd
    rules := rulesFromDates ecd doi lsd xpd f.draftsAt f.hasOverdueInterestClause }

end ComplianceEvaluator

namespace FileUploader

/-- A browser `File` as seen by `processFiles`: its name, MIME type and byte
size, together with the outcome of the `FileReader` (the base64 payload on
success, `none` on a read error). -/
structure BrowserFile where
  name : String
  type : String
  size : Nat
  readResult : Option String
deriving DecidableEq, Repr

/-- The `FileData` record the uploader emits for an accepted file. -/
structure FileData where
  file : BrowserFile
  base64 : String
  mimeType : String
deriving DecidableEq, Repr

def ALLOWED_TYPES : List String :=
  ["application/pdf", "image/png", "image/jpeg", "image/webp", "image/heic"]

/-- The 10MB upload limit of `processFiles`. -/
def maxFileSize : Nat := 10 * 1024 * 1024

/-- One iteration of the `processFiles` loop: reject disallowed types,
oversized files and read failures by setting the error message, otherwise
append the new `FileData`. -/
def processStep (acc : List FileData × Option String) (file : BrowserFile) :
    List FileData × Option String :=
  if !(ALLOWED_TYPES.contains file.type) then
    (acc.1,
     some ("Invalid file type: " ++ file.name ++
       ". Please upload PDF, PNG, JPG, or WEBP."))
  else if maxFileSize < file.size then
    (acc.1, some ("File too large: " ++ file.name ++ ". Maximum size is 10MB."))
  else
    match file.readResult with
    | some b64 => (acc.1 ++ [⟨file, b64, file.type⟩], acc.2)
    | none => (acc.1, some ("Failed to read file: " ++ file.name))

/-- `FileUploader.processFiles`: the accepted files in order together with
the last error message set, starting from no files and no error. -/
def processFiles (files : List BrowserFile) : List FileData × Option String :=
  files.foldl processStep ([], none)

/-- A file passes all three acceptance checks of the loop. -/
def acceptsFile (f : BrowserFile) : Bool :=
  ALLOWED_TYPES.contains f.type && decide (f.size ≤ maxFileSize) &&
    f.readResult.isSome

/-- The `FileData` built from an accepted file. -/
def toFileData (f : BrowserFile) : FileData :=
  ⟨f, f.readResult.getD "", f.type⟩

end FileUploader

example :
    (ComplianceEvaluator.evaluate
      ⟨some "01/01/2024", some "01/01/2024", none, none, some "AT SIGHT",
        none⟩).rules.map ComplianceRule.passed = [true, false, true] := by decide
example :
    ComplianceEvaluator.interestOutcome (some "at sight basis") (some false) =
      (true, ComplianceEvaluator.atSightPassMsg) := by decide

namespace ComplianceEvaluator

/-- Field values on which every date normalization fails: a prose string
with no month name, absent fields, and the empty string. -/
def badFields : TradeFields :=
  ⟨some "not a date", none, none, some "", none, none⟩

/-- An outcome computed from a missing date is the failed missing-date
verdict, whichever the other input is. -/
theorem exportOutcome_missing (x y : Option NormalizedDate)
    (h : x = none ∨ y = none) :
    exportOutcome x y = (false, missingDateMsg) := by
  cases x with
  | none => cases y <;> rfl
  | some a =>
    cases y with
    | none => rfl
    | some b => rcases h with h | h <;> exact absurd h (by simp)

/-- An outcome computed from a missing date among the three sequence dates
is the failed missing-date verdict. -/
theorem shipmentOutcome_missing (x y z : Option NormalizedDate)
    (h : x = none ∨ y = none ∨ z = none) :
    shipmentOutcome x y z = (false, missingDateMsg) := by
  cases x with
  | none => cases y <;> cases z <;> rfl
  | some a =>
    cases y with
    | none => cases z <;> rfl
    | some b =>
      cases z with
      | none => rfl
      | some c =>
        rcases h with h | h | h <;> exact absurd h (by simp)

/-- C3: `evaluate` is total — it returns a `ComplianceResult` with the full
rule list for every combination of present, absent, empty or malformed
field values (it is a total Lean function into `ComplianceResult`, with no
error outcome in its type), and every internal normalization failure
(`DateParseError`, modelled by `none`) is converted into the missing-date
state: a rule whose required date is absent or unparseable is failed with
the missing-date explanation instead of aborting the evaluation. -/
theorem evaluate_total_never_raises (f : TradeFields) :
    ((evaluate f).rules.length = 3) ∧
    (getDate f.exportContractDate = none ∨ getDate f.dateOfIssue = none →
      (evaluate f).rules[0]? = some ⟨exportRuleName, false, missingDateMsg⟩) ∧
    (getDate f.dateOfIssue = none ∨ getDate f.latestShipmentDate = none ∨
        getDate f.expiryDate = none →
      (evaluate f).rules[1]? = some ⟨shipmentRuleName, false, missingDateMsg⟩) := by
  refine ⟨rfl, fun h => ?_, fun h => ?_⟩
  · have h0 : (evaluate f).rules[0]? =
        some (mkRule exportRuleName
          (exportOutcome (getDate f.exportContractDate)
            (getDate f.dateOfIssue))) := rfl
    rw [h0, exportOutcome_missing _ _ h]; rfl
  · have h1 : (evaluate f).rules[1]? =
        some (mkRule shipmentRuleName
          (shipmentOutcome (getDate f.dateOfIssue)
            (getDate f.latestShipmentDate) (getDate f.expiryDate))) := rfl
    rw [h1, shipmentOutcome_missing _ _ _ h]; rfl

/-- C3 witness: on concrete malformed input (a prose non-date and an empty
string) both date rules are failed with the missing-date explanation. -/
theorem evaluate_total_never_raises_witness :
    (evaluate badFields).rules[0]? =
        some ⟨exportRuleName, false, missingDateMsg⟩ ∧
      (evaluate badFields).rules[1]? =
        some ⟨shipmentRuleName, false, missingDateMsg⟩ := by
  have h := evaluate_total_never_raises badFields
  exact ⟨h.2.1 (Or.inl (by decide)), h.2.2 (Or.inr (Or.inr (by decide)))⟩

/-- C4: the rule named "Export Contract Sequence" is first in the result; it
passes exactly when both `exportContractDate` and `dateOfIssue` normalize
and the export-contract date is less than or equal to the date of issue
(equal dates pass); a missing or unparseable date gives the failed
missing-date explanation, and parseable but out-of-order dates give the
failed out-of-order explanation. -/
theorem export_contract_rule_characterization (f : TradeFields) :
    ((evaluate f).rules[0]?).map
        (fun r => (r.ruleName, r.passed, r.explanation)) =
      some ("Export Contract Sequence",
        match getDate f.exportContractDate, getDate f.dateOfIssue with
        | some a, some b =>
          if dateLe a b then (true, exportSeqPassMsg)
          else
            (false, "Export Contract Date must be on or before the Date of Issue")
        | _, _ => (false, "Missing required date for verification")) := rfl

/-- C5: the rule named "Shipment & Expiry Sequence" is second in the result;
it passes exactly when `dateOfIssue`, `latestShipmentDate` and `expiryDate`
all normalize and satisfy the non-strict chain issue ≤ shipment ≤ expiry;
any missing or unparseable date among the three gives the failed
missing-date explanation regardless of the others, and a violated chain
gives the failed sequence explanation. -/
theorem shipment_expiry_rule_characterization (f : TradeFields) :
    ((evaluate f).rules[1]?).map
        (fun r => (r.ruleName, r.passed, r.explanation)) =
      some ("Shipment & Expiry Sequence",
        match getDate f.dateOfIssue, getDate f.latestShipmentDate,
            getDate f.expiryDate with
        | some a, some b, some c =>
          if dateLe a b && dateLe b c then (true, shipmentSeqPassMsg)
          else (false, "Dates must follow sequence: Issue -> Shipment -> Expiry")
        | _, _, _ => (false, "Missing required date for verification")) := rfl

/-- C6: the rule named "Overdue Interest Verification" is third in the
result; with `draftsAt` present and containing "AT SIGHT" case-insensitively
it passes with the at-sight explanation regardless of the clause flag; with
`draftsAt` present otherwise it passes exactly when
`hasOverdueInterestClause` is exactly `true` and otherwise fails with the
usance explanation; with `draftsAt` absent it fails with the reused
missing-date explanation. -/
theorem overdue_interest_rule_characterization (f : TradeFields) :
    ((evaluate f).rules[2]?).map
        (fun r => (r.ruleName, r.passed, r.explanation)) =
      some ("Overdue Interest Verification",
        match f.draftsAt, f.hasOverdueInterestClause with
        | some s, cl =>
          if containsAtSight s then
            (true, "Interest clause not required for At Sight drafts")
          else if cl == some true then (true, usancePassMsg)
          else (false, "Missing overdue interest clause for usance draft")
        | none, _ => (false, "Missing required date for verification")) := rfl

/-- C8: display consistency — the normalized date values placed into the
result are exactly the single normalization of each field, and the rule
verdicts are computed from those same values, with no second derivation. -/
theorem evaluate_display_consistency (f : TradeFields) :
    (evaluate f).exportContractDate = getDate f.exportContractDate ∧
    (evaluate f).dateOfIssue = getDate f.dateOfIssue ∧
    (evaluate f).latestShipmentDate = getDate f.latestShipmentDate ∧
    (evaluate f).expiryDate = getDate f.expiryDate ∧
    (evaluate f).rules =
      rulesFromDates (evaluate f).exportContractDate
        (evaluate f).dateOfIssue (evaluate f).latestShipmentDate
        (evaluate f).expiryDate f.draftsAt f.hasOverdueInterestClause :=
  ⟨rfl, rfl, rfl, rfl, rfl⟩

/-- C9: the rules appear in the fixed order Export Contract Sequence,
Shipment & Expiry Sequence, Overdue Interest Verification for every
input. -/
theorem evaluate_rule_order (f : TradeFields) :
    (evaluate f).rules.map ComplianceRule.ruleName =
      ["Export Contract Sequence", "Shipment & Expiry Sequence",
       "Overdue Interest Verification"] := rfl

end ComplianceEvaluator


namespace DateNormalizer

/-- A digit character has code point between 48 and 57. -/
theorem char_digit_bounds (c : Char) (h : c.isDigit = true) :
    48 ≤ c.toNat ∧ c.toNat ≤ 57 := by
  simp only [Char.isDigit, ge_iff_le, Bool.and_eq_true, decide_eq_true_eq] at h
  obtain ⟨h1, h2⟩ := h
  rw [UInt32.le_def] at h1 h2
  exact ⟨h1, h2⟩

/-- The value of a digit character is at most nine. -/
theorem digitVal_le_nine (c : Char) (h : c.isDigit = true) : digitVal c ≤ 9 := by
  have := char_digit_bounds c h
  unfold digitVal
  omega

/-- A digit character is not a group delimiter. -/
theorem isDigit_not_delim (c : Char) (h : c.isDigit = true) :
    isDelim c = false := by
  rcases h2 : isDelim c with _ | _
  · rfl
  · simp only [isDelim, Bool.or_eq_true, beq_iff_eq] at h2
    rcases h2 with rfl | rfl <;> simp at h

/-- The rendered digit of a value below ten is a digit character. -/
theorem isDigit_digitChar (n : Nat) (h : n < 10) :
    (digitChar n).isDigit = true := by
  interval_cases n <;> decide

/-- The rendered digit of a value below ten is not a delimiter. -/
theorem isDelim_digitChar (n : Nat) (h : n < 10) :
    isDelim (digitChar n) = false := by
  interval_cases n <;> decide

/-- Rendering then reading a digit below ten is the identity. -/
theorem digitVal_digitChar (n : Nat) (h : n < 10) :
    digitVal (digitChar n) = n := by
  interval_cases n <;> decide

/-- Reading back a two-digit zero-padded rendering recovers the value. -/
theorem parseNat_pad2 (n : Nat) (h : n ≤ 99) : parseNat (pad2 n) = n := by
  have h1 : n / 10 < 10 := by omega
  have h2 : n % 10 < 10 := by omega
  simp [parseNat, pad2, digitVal_digitChar, h1, h2]
  omega

/-- Reading back a four-digit year rendering recovers the value. -/
theorem parseNat_year4 (y : Nat) (h : y ≤ 9999) : parseNat (year4 y) = y := by
  have h1 : y / 1000 < 10 := by omega
  have h2 : y / 100 % 10 < 10 := by omega
  have h3 : y / 10 % 10 < 10 := by omega
  have h4 : y % 10 < 10 := by omega
  simp [parseNat, year4, digitVal_digitChar, h1, h2, h3, h4]
  omega

/-- A string of two or fewer digit characters reads as at most 99. -/
theorem parseNat_le_99 (l : List Char) (hall : l.all Char.isDigit = true)
    (hl : l.length ≤ 2) : parseNat l ≤ 99 := by
  rcases l with _ | ⟨a, _ | ⟨b, _ | ⟨c, t⟩⟩⟩
  · simp [parseNat]
  · have ha := digitVal_le_nine a (by simpa using hall)
    simp only [parseNat, List.foldl]
    omega
  · simp only [List.all_cons, List.all_nil, Bool.and_eq_true] at hall
    have ha := digitVal_le_nine a hall.1
    have hb := digitVal_le_nine b hall.2.1
    simp only [parseNat, List.foldl]
    omega
  · simp at hl

/-- An all-digit string contains no delimiter, so it splits into a single
group. -/
theorem splitGroups_all_digit (cs : List Char)
    (h : cs.all Char.isDigit = true) : splitGroups cs = [cs] := by
  induction cs with
  | nil => rfl
  | cons c cs ih =>
    simp only [List.all_cons, Bool.and_eq_true] at h
    rw [splitGroups, ih h.2]
    simp [isDigit_not_delim c h.1]

/-- A successful alternative is one of its two branches. -/
theorem opt_orElse_eq_some {α : Type} (a b : Option α) (v : α)
    (h : (a <|> b) = some v) : a = some v ∨ b = some v := by
  cases a with
  | none => right; simpa using h
  | some x => left; simpa using h

/-- A date the smart constructor accepts is the given triple and is valid. -/
theorem mkValid_eq_some (y m d : Nat) (nd : NormalizedDate)
    (h : mkValid y m d = some nd) :
    nd = ⟨y, m, d⟩ ∧ isValidDate y m d = true := by
  unfold mkValid at h
  split at h
  case isTrue hv => injection h with h2; exact ⟨h2.symm, hv⟩
  case isFalse => exact absurd h (by simp)

/-- In-range years make the full validity check coincide with the month/day
check. -/
theorem isValidDate_eq_validMD (y m d : Nat) (h1 : 1000 ≤ y)
    (h2 : y ≤ 9999) : isValidDate y m d = validMD y m d := by
  simp [isValidDate, h1, h2]

/-- No month has more than 31 days. -/
theorem daysInMonth_le (y m : Nat) : daysInMonth y m ≤ 31 := by
  unfold daysInMonth
  split_ifs <;> omega

/-- Bounds carried by a valid date. -/
theorem isValidDate_bounds (y m d : Nat) (h : isValidDate y m d = true) :
    1000 ≤ y ∧ y ≤ 9999 ∧ 1 ≤ m ∧ m ≤ 12 ∧ 1 ≤ d ∧ d ≤ 31 := by
  simp only [isValidDate, validMD, Bool.and_eq_true, decide_eq_true_eq] at h
  have h31 := daysInMonth_le y m
  omega

/-- Any date produced by the six-digit parse path is valid. -/
theorem valid_of_parse6 (cs : List Char) (d : NormalizedDate)
    (h : parse6 cs = some d) : isValidDate d.year d.month d.day = true := by
  simp only [parse6] at h
  rcases opt_orElse_eq_some _ _ _ h with h2 | h2 <;>
    · obtain ⟨rfl, hv⟩ := mkValid_eq_some _ _ _ _ h2
      exact hv

/-- Any date produced by the delimited parse path is valid. -/
theorem valid_of_parseGroups (g1 g2 g3 : List Char) (d : NormalizedDate)
    (h : parseGroups g1 g2 g3 = some d) :
    isValidDate d.year d.month d.day = true := by
  unfold parseGroups at h
  split at h
  · obtain ⟨rfl, hv⟩ := mkValid_eq_some _ _ _ _ h
    exact hv
  · rcases opt_orElse_eq_some _ _ _ h with h2 | h2 <;>
      · obtain ⟨rfl, hv⟩ := mkValid_eq_some _ _ _ _ h2
        exact hv

/-- Any date produced by the prose parse path is valid. -/
theorem valid_of_parseProse (cs : List Char) (d : NormalizedDate)
    (h : parseProse cs = some d) :
    isValidDate d.year d.month d.day = true := by
  simp only [parseProse] at h
  split at h
  · exact absurd h (by simp)
  · split at h
    · split at h
      · obtain ⟨rfl, hv⟩ := mkValid_eq_some _ _ _ _ h
        exact hv
      · split at h
        · obtain ⟨rfl, hv⟩ := mkValid_eq_some _ _ _ _ h
          exact hv
        · obtain ⟨rfl, hv⟩ := mkValid_eq_some _ _ _ _ h
          exact hv
    · exact absurd h (by simp)

/-- Any date produced by the group-dispatch path is valid. -/
theorem valid_of_delimitedCase (cs : List Char) (gs : List (List Char))
    (d : NormalizedDate) (h : delimitedCase cs gs = some d) :
    isValidDate d.year d.month d.day = true := by
  rcases gs with _ | ⟨g1, _ | ⟨g2, _ | ⟨g3, _ | ⟨g4, t⟩⟩⟩⟩ <;>
    simp only [delimitedCase] at h
  case cons.cons.cons.nil =>
    split at h
    · exact valid_of_parseGroups _ _ _ _ h
    · exact valid_of_parseProse _ _ h
  all_goals exact valid_of_parseProse _ _ h

/-- Every date `normalize` produces satisfies the `NormalizedDate`
invariant: 4-digit year and plausible month/day. -/
theorem normalize_valid (s : String) (d : NormalizedDate)
    (h : normalize s = some d) :
    isValidDate d.year d.month d.day = true := by
  unfold normalize normalizeChars at h
  split at h
  · exact valid_of_parse6 _ _ h
  · exact valid_of_delimitedCase _ _ _ h

end DateNormalizer

namespace DateNormalizer

/-- C1: on every six-contiguous-digit input string, `normalize` uses the
YYMMDD interpretation (year 2000 + first pair, month middle pair, day last
pair) whenever that interpretation has a plausible month and day, and falls
back to the DDMMYY interpretation (with the windowed year) only when the
YYMMDD month or day is invalid; if both readings are invalid the parse
fails. -/
theorem normalize_six_digit_policy (s : String) (hlen : s.data.length = 6)
    (hdig : s.data.all Char.isDigit = true) :
    normalize s =
      (if validMD (2000 + parseNat (s.data.take 2))
            (parseNat ((s.data.drop 2).take 2)) (parseNat (s.data.drop 4)) then
         some ⟨2000 + parseNat (s.data.take 2),
           parseNat ((s.data.drop 2).take 2), parseNat (s.data.drop 4)⟩
       else if validMD (resolveYearVal (parseNat (s.data.drop 4)))
            (parseNat ((s.data.drop 2).take 2)) (parseNat (s.data.take 2)) then
         some ⟨resolveYearVal (parseNat (s.data.drop 4)),
           parseNat ((s.data.drop 2).take 2), parseNat (s.data.take 2)⟩
       else none) := by
  have hta : (s.data.take 2).all Char.isDigit = true := by
    rw [List.all_eq_true] at hdig ⊢
    exact fun c hc => hdig c (List.take_subset _ _ hc)
  have htc : (s.data.drop 4).all Char.isDigit = true := by
    rw [List.all_eq_true] at hdig ⊢
    exact fun c hc => hdig c (List.drop_subset _ _ hc)
  have ha99 : parseNat (s.data.take 2) ≤ 99 :=
    parseNat_le_99 _ hta (by simp)
  have hc99 : parseNat (s.data.drop 4) ≤ 99 :=
    parseNat_le_99 _ htc (by simp [hlen])
  have hguard : (s.data.length == 6 && s.data.all Char.isDigit) = true := by
    rw [hlen, hdig]; rfl
  unfold normalize normalizeChars
  rw [hguard, if_pos rfl]
  simp only [parse6]
  set a := parseNat (s.data.take 2) with hA
  set b := parseNat ((s.data.drop 2).take 2) with hB
  set c := parseNat (s.data.drop 4) with hC
  have hyr1 : 1000 ≤ 2000 + a := by omega
  have hyr2 : 2000 + a ≤ 9999 := by omega
  have hyv1 : 1000 ≤ resolveYearVal c := by
    unfold resolveYearVal; split_ifs <;> omega
  have hyv2 : resolveYearVal c ≤ 9999 := by
    unfold resolveYearVal; split_ifs <;> omega
  unfold mkValid
  rw [isValidDate_eq_validMD _ _ _ hyr1 hyr2,
    isValidDate_eq_validMD _ _ _ hyv1 hyv2]
  cases hv1 : validMD (2000 + a) b c <;>
    cases hv2 : validMD (resolveYearVal c) b a <;> simp

/-- C1 witness: the SWIFT example — "251124" parses as 24 November 2025. -/
theorem normalize_six_digit_policy_witness :
    normalize "251124" = some ⟨2025, 11, 24⟩ := by
  rw [normalize_six_digit_policy "251124" (by decide) (by decide)]
  decide

end DateNormalizer

namespace DateNormalizer

/-- A delimited numeric input with three groups takes the delimited parse
path: the six-digit guard cannot fire (the input contains a delimiter) and
the group guard holds. -/
theorem normalize_groups (s : String) (g1 g2 g3 : List Char)
    (hsplit : splitGroups s.data = [g1, g2, g3])
    (h1 : g1.isEmpty = false) (h2 : g2.isEmpty = false)
    (h3 : g3.isEmpty = false)
    (hd1 : g1.all Char.isDigit = true) (hd2 : g2.all Char.isDigit = true)
    (hd3 : g3.all Char.isDigit = true) :
    normalize s = parseGroups g1 g2 g3 := by
  have hnd : s.data.all Char.isDigit = false := by
    cases hall : s.data.all Char.isDigit
    · rfl
    · exfalso
      have h := splitGroups_all_digit s.data hall
      rw [hsplit] at h
      simp at h
  have hguard : (s.data.length == 6 && s.data.all Char.isDigit) = false := by
    rw [hnd]; simp
  unfold normalize normalizeChars
  rw [hguard, if_neg (by simp), hsplit]
  simp only [delimitedCase, h1, h2, h3, hd1, hd2, hd3]
  rfl

/-- C2 (amended): for a slash- or dash-delimited numeric date string of
three groups, `normalize` treats a 4-digit first group as YYYY-MM-DD;
otherwise it prefers the DD/MM/YYYY reading and uses the MM/DD/YYYY reading
only when the DD/MM/YYYY interpretation is not a valid calendar date; the
year group is windowed (00-69 to 2000+yy, 70-99 to 1900+yy) when it has
fewer than three digits. -/
theorem normalize_delimited_policy (s : String) (g1 g2 g3 : List Char)
    (hsplit : splitGroups s.data = [g1, g2, g3])
    (h1 : g1.isEmpty = false) (h2 : g2.isEmpty = false)
    (h3 : g3.isEmpty = false)
    (hd1 : g1.all Char.isDigit = true) (hd2 : g2.all Char.isDigit = true)
    (hd3 : g3.all Char.isDigit = true) :
    normalize s =
      if g1.length == 4 then
        mkValid (parseNat g1) (parseNat g2) (parseNat g3)
      else
        mkValid (resolveYear g3) (parseNat g2) (parseNat g1) <|>
          mkValid (resolveYear g3) (parseNat g1) (parseNat g2) := by
  rw [normalize_groups s g1 g2 g3 hsplit h1 h2 h3 hd1 hd2 hd3]
  rfl

/-- C2 witness: the ambiguous "12/25/2023" resolves through the MM/DD/YYYY
fallback to 25 December 2023, the claim's own example. -/
theorem normalize_delimited_policy_witness :
    normalize "12/25/2023" = some ⟨2023, 12, 25⟩ := by
  rw [normalize_delimited_policy "12/25/2023" "12".data "25".data "2023".data
    (by decide) (by decide) (by decide) (by decide) (by decide) (by decide)
    (by decide)]
  decide

/-- C2 counterexample: the claim's general rule — MM/DD/YYYY is used only
when the FIRST group's value exceeds 12 — contradicts the claim's own
example.  `claimC2Delimited` renders that rule literally: on "12/25/2023"
the first group 12 does not exceed 12, so the rule mandates the DD/MM/YYYY
reading (day 12, month 25), which is invalid, and yields `none`; `normalize`
instead returns 25 December 2023 via the MM/DD/YYYY reading, agreeing with
the claim's example and showing the fallback fires on the invalidity of the
DD/MM/YYYY reading (here the second group exceeding 12), not on the first
group exceeding 12. -/
theorem delimited_first_group_cex :
    normalize "12/25/2023" = some ⟨2023, 12, 25⟩ ∧
    claimC2Delimited "12".data "25".data "2023".data = none ∧
    claimC2Delimited "12".data "25".data "2023".data ≠
      normalize "12/25/2023" := by
  refine ⟨by decide, by decide, by decide⟩

end DateNormalizer

namespace DateNormalizer

/-- C7: `normalize` is idempotent under re-serialization — whenever it
parses a raw string successfully, normalizing the canonical DD/MM/YYYY
display form of the result reproduces exactly the same `NormalizedDate`. -/
theorem normalize_reserialize_idempotent (s : String) (d : NormalizedDate)
    (h : normalize s = some d) :
    normalize (serializeDate d) = some d := by
  have hv := normalize_valid s d h
  obtain ⟨hy1, hy2, hm1, hm2, hdd1, hdd2⟩ := isValidDate_bounds _ _ _ hv
  have hD1 : d.day / 10 < 10 := by omega
  have hD2 : d.day % 10 < 10 := by omega
  have hM1 : d.month / 10 < 10 := by omega
  have hM2 : d.month % 10 < 10 := by omega
  have hY1 : d.year / 1000 < 10 := by omega
  have hY2 : d.year / 100 % 10 < 10 := by omega
  have hY3 : d.year / 10 % 10 < 10 := by omega
  have hY4 : d.year % 10 < 10 := by omega
  have hsg : splitGroups
      [digitChar (d.day / 10), digitChar (d.day % 10), '/',
       digitChar (d.month / 10), digitChar (d.month % 10), '/',
       digitChar (d.year / 1000), digitChar (d.year / 100 % 10),
       digitChar (d.year / 10 % 10), digitChar (d.year % 10)] =
      [[digitChar (d.day / 10), digitChar (d.day % 10)],
       [digitChar (d.month / 10), digitChar (d.month % 10)],
       [digitChar (d.year / 1000), digitChar (d.year / 100 % 10),
        digitChar (d.year / 10 % 10), digitChar (d.year % 10)]] := by
    simp [splitGroups, isDelim_digitChar _ hD1, isDelim_digitChar _ hD2,
      isDelim_digitChar _ hM1, isDelim_digitChar _ hM2,
      isDelim_digitChar _ hY1, isDelim_digitChar _ hY2,
      isDelim_digitChar _ hY3, isDelim_digitChar _ hY4,
      show isDelim '/' = true from rfl]
  show normalizeChars
      [digitChar (d.day / 10), digitChar (d.day % 10), '/',
       digitChar (d.month / 10), digitChar (d.month % 10), '/',
       digitChar (d.year / 1000), digitChar (d.year / 100 % 10),
       digitChar (d.year / 10 % 10), digitChar (d.year % 10)] = some d
  unfold normalizeChars
  rw [if_neg (by simp), hsg]
  simp only [delimitedCase]
  rw [if_pos (by simp [isDigit_digitChar _ hD1, isDigit_digitChar _ hD2,
    isDigit_digitChar _ hM1, isDigit_digitChar _ hM2,
    isDigit_digitChar _ hY1, isDigit_digitChar _ hY2,
    isDigit_digitChar _ hY3, isDigit_digitChar _ hY4])]
  have hry : resolveYear
      [digitChar (d.year / 1000), digitChar (d.year / 100 % 10),
       digitChar (d.year / 10 % 10), digitChar (d.year % 10)] = d.year := by
    unfold resolveYear
    rw [if_pos (by simp)]
    exact parseNat_year4 d.year (by omega)
  have hpm : parseNat
      [digitChar (d.month / 10), digitChar (d.month % 10)] = d.month :=
    parseNat_pad2 d.month (by omega)
  have hpd : parseNat
      [digitChar (d.day / 10), digitChar (d.day % 10)] = d.day :=
    parseNat_pad2 d.day (by omega)
  unfold parseGroups
  rw [if_neg (by simp), hry, hpm, hpd]
  unfold mkValid
  rw [if_pos hv]
  rfl

/-- C7 witness: the ISO example — "2023-12-25" parses to 25 December 2023,
is displayed as "25/12/2023", and normalizing that display form returns the
same date. -/
theorem normalize_reserialize_idempotent_witness :
    normalize "2023-12-25" = some ⟨2023, 12, 25⟩ ∧
    serializeDate ⟨2023, 12, 25⟩ = "25/12/2023" ∧
    normalize "25/12/2023" = some ⟨2023, 12, 25⟩ := by
  refine ⟨by decide, by decide, ?_⟩
  have h := normalize_reserialize_idempotent "2023-12-25" ⟨2023, 12, 25⟩
    (by decide)
  rw [show serializeDate ⟨2023, 12, 25⟩ = "25/12/2023" from by decide] at h
  exact h

end DateNormalizer

namespace FileUploader

/-- Demonstration batch: an accepted PDF, a rejected type, an oversized
image, and an accepted image after the rejections. -/
def demoFiles : List BrowserFile :=
  [⟨"a.pdf", "application/pdf", 100, some "AAAA"⟩,
   ⟨"b.exe", "application/exe", 100, some "BBBB"⟩,
   ⟨"c.png", "image/png", maxFileSize + 1, some "CCCC"⟩,
   ⟨"d.jpg", "image/jpeg", 5, some "DDDD"⟩]

/-- The loop accumulates exactly the accepted files, in order, no matter
what was accumulated or what error was set before. -/
theorem foldl_processStep (files : List BrowserFile)
    (acc : List FileData × Option String) :
    (files.foldl processStep acc).1 =
      acc.1 ++ (files.filter acceptsFile).map toFileData := by
  induction files generalizing acc with
  | nil => simp
  | cons f fs ih =>
    rw [List.foldl_cons, List.filter_cons, ih]
    cases hT : ALLOWED_TYPES.contains f.type with
    | false =>
      have hstep : processStep acc f = (acc.1, some ("Invalid file type: " ++
          f.name ++ ". Please upload PDF, PNG, JPG, or WEBP.")) := by
        unfold processStep
        rw [hT]
        rfl
      have hacc : acceptsFile f = false := by
        unfold acceptsFile
        rw [hT]
        rfl
      rw [hstep, hacc]
      simp
    | true =>
      cases hS : decide (f.size ≤ maxFileSize) with
      | false =>
        have hlt : maxFileSize < f.size := by
          have := of_decide_eq_false hS
          omega
        have hstep : processStep acc f = (acc.1, some ("File too large: " ++
            f.name ++ ". Maximum size is 10MB.")) := by
          unfold processStep
          rw [hT, if_neg (by simp), if_pos hlt]
        have hacc : acceptsFile f = false := by
          unfold acceptsFile
          rw [hT, hS]
          rfl
        rw [hstep, hacc]
        simp
      | true =>
        have hle : f.size ≤ maxFileSize := of_decide_eq_true hS
        cases hR : f.readResult with
        | none =>
          have hstep : processStep acc f =
              (acc.1, some ("Failed to read file: " ++ f.name)) := by
            unfold processStep
            rw [hT, if_neg (by simp), if_neg (by omega), hR]
          have hacc : acceptsFile f = false := by
            unfold acceptsFile
            rw [hT, hS, hR]
            rfl
          rw [hstep, hacc]
          simp
        | some b64 =>
          have hstep : processStep acc f =
              (acc.1 ++ [⟨f, b64, f.type⟩], acc.2) := by
            unfold processStep
            rw [hT, if_neg (by simp), if_neg (by omega), hR]
          have hacc : acceptsFile f = true := by
            unfold acceptsFile
            rw [hT, hS, hR]
            rfl
          have htd : toFileData f = ⟨f, b64, f.type⟩ := by
            unfold toFileData
            rw [hR]
            rfl
          rw [hstep, hacc]
          simp [htd]

/-- C10: `processFiles` emits exactly the files passing the three acceptance
checks, in input order — so a file whose MIME type is not allowed or whose
size exceeds the 10MB limit is never added to the emitted list, every
emitted `FileData` has an allowed type and size at most the limit, and a
rejected file only affects the error message, never the acceptance of the
other files in the batch. -/
theorem processFiles_accepts_only_valid (files : List BrowserFile) :
    (processFiles files).1 = (files.filter acceptsFile).map toFileData ∧
    ∀ fd ∈ (processFiles files).1,
      ALLOWED_TYPES.contains fd.mimeType = true ∧
        fd.file.size ≤ maxFileSize := by
  have hmain : (processFiles files).1 =
      (files.filter acceptsFile).map toFileData := by
    unfold processFiles
    rw [foldl_processStep]
    rfl
  refine ⟨hmain, fun fd hfd => ?_⟩
  rw [hmain] at hfd
  obtain ⟨f, hf, rfl⟩ := List.mem_map.mp hfd
  have hacc := (List.mem_filter.mp hf).2
  unfold acceptsFile at hacc
  simp only [Bool.and_eq_true, decide_eq_true_eq] at hacc
  exact ⟨hacc.1.1, hacc.1.2⟩

/-- C10 witness: in the demonstration batch the two valid files are both
emitted — the rejections in between do not abort the batch — and the
emitted PDF satisfies the type and size guarantees. -/
theorem processFiles_accepts_only_valid_witness :
    (processFiles demoFiles).1 =
      [⟨⟨"a.pdf", "application/pdf", 100, some "AAAA"⟩, "AAAA",
        "application/pdf"⟩,
       ⟨⟨"d.jpg", "image/jpeg", 5, some "DDDD"⟩, "DDDD", "image/jpeg"⟩] ∧
    ALLOWED_TYPES.contains "application/pdf" = true ∧ (100 : Nat) ≤ maxFileSize := by
  have h := processFiles_accepts_only_valid demoFiles
  refine ⟨by rw [h.1]; decide, ?_⟩
  have hm := h.2 ⟨⟨"a.pdf", "application/pdf", 100, some "AAAA"⟩, "AAAA",
    "application/pdf"⟩ (by rw [h.1]; decide)
  exact hm

end FileUploader
